import Mathlib

/-!
Verification of the Catan scorekeeping application (db.py / app.py).

The SQLite store is embedded shallowly: each table is a list of rows, the
AUTOINCREMENT counters are carried explicitly, and each query function of
db.py is translated into a pure Lean function on the `DB` state.  SQL ORDER
BY clauses are rendered with `List.insertionSort` over executable Boolean
comparison functions; SQL joins are rendered with filter/flatMap so that the
multiplicity semantics of joins is kept faithfully.  TEXT comparison (BINARY
collation) is modelled by lexicographic comparison of the character lists.
-/

/-! ### Data model: the three tables of SCHEMA_SQL -/

structure Player where
  id : Nat
  name : String
deriving DecidableEq, Repr

structure Game where
  id : Nat
  played_at : String
  winner_id : Option Nat
deriving DecidableEq, Repr

structure Score where
  id : Nat
  game_id : Nat
  player_id : Nat
  points : Int
deriving DecidableEq, Repr

structure DB where
  players : List Player
  games : List Game
  scores : List Score
  nextPlayerId : Nat
  nextGameId : Nat
  nextScoreId : Nat
deriving DecidableEq, Repr

def emptyDB : DB := ⟨[], [], [], 1, 1, 1⟩

/-! ### Python semantics helpers -/

/-- Running best of Python's builtin max: an element replaces the current
best only when its compared value is strictly greater, so on ties the
earliest element is kept. -/
def pyMaxAux (best : Nat × Int) : List (Nat × Int) → Nat × Int
  | [] => best
  | p :: ps => pyMaxAux (if best.2 < p.2 then p else best) ps

/-- Python max over the keys of a dict with key function the stored value,
as in add_game; a dict is modelled as an association list in iteration
order.  Empty input has no max (Python raises before reaching max). -/
def pyMax : List (Nat × Int) → Option (Nat × Int)
  | [] => none
  | p :: ps => some (pyMaxAux p ps)

/-- Leading- and trailing-whitespace removal on a character list, the
semantics of Python str.strip(). -/
def stripChars (l : List Char) : List Char :=
  ((l.dropWhile Char.isWhitespace).reverse.dropWhile Char.isWhitespace).reverse

/-- Python str.strip() on strings. -/
def pyStrip (s : String) : String := ⟨stripChars s.data⟩

/-- Running totals of a list of naturals, the semantics of pandas cumsum. -/
def cumsumFrom (acc : Nat) : List Nat → List Nat
  | [] => []
  | x :: xs => (acc + x) :: cumsumFrom (acc + x) xs

/-! ### TEXT (BINARY collation) comparison -/

def charListLt : List Char → List Char → Bool
  | [], [] => false
  | [], _ :: _ => true
  | _ :: _, [] => false
  | a :: as, b :: bs => if a < b then true else if b < a then false else charListLt as bs

def strLt (a b : String) : Bool := charListLt a.data b.data

/-! ### Row shapes returned by the queries -/

structure LBRow where
  id : Nat
  name : String
  total_points : Int
  wins : Nat
  games_played : Nat
deriving DecidableEq, Repr

structure GameRow where
  game_id : Nat
  played_at : String
  winner : Option String
deriving DecidableEq, Repr

structure ScoreRow where
  game_id : Nat
  played_at : String
  player : String
  points : Int
deriving DecidableEq, Repr

structure ExportRow where
  game_id : Nat
  played_at : String
  winner : Option String
  player : String
  points : Int
deriving DecidableEq, Repr

/-! ### ORDER BY comparison functions -/

/-- ORDER BY total_points DESC, wins DESC, name ASC (get_leaderboard). -/
def lbLe (a b : LBRow) : Bool :=
  if b.total_points < a.total_points then true
  else if a.total_points < b.total_points then false
  else if b.wins < a.wins then true
  else if a.wins < b.wins then false
  else !(strLt b.name a.name)

/-- ORDER BY g.played_at DESC, g.id DESC (list_games). -/
def gameDescLe (a b : GameRow) : Bool :=
  if strLt b.played_at a.played_at then true
  else if strLt a.played_at b.played_at then false
  else decide (b.game_id ≤ a.game_id)

/-- ORDER BY g.played_at ASC, g.id ASC (get_games_with_winners). -/
def gameAscLe (a b : GameRow) : Bool :=
  if strLt a.played_at b.played_at then true
  else if strLt b.played_at a.played_at then false
  else decide (a.game_id ≤ b.game_id)

/-- ORDER BY s.points DESC (get_game_scores). -/
def scoreRowLe (a b : String × Int) : Bool := decide (b.2 ≤ a.2)

/-- ORDER BY g.played_at ASC, g.id ASC, s.points DESC (get_all_scores). -/
def allScoreRowLe (a b : ScoreRow) : Bool :=
  if strLt a.played_at b.played_at then true
  else if strLt b.played_at a.played_at then false
  else if a.game_id < b.game_id then true
  else if b.game_id < a.game_id then false
  else decide (b.points ≤ a.points)

/-! ### db.py operations -/

/-- INSERT OR IGNORE INTO players(name): the UNIQUE constraint on name makes
a duplicate insert a silent no-op. -/
def insertOrIgnorePlayer (n : String) (db : DB) : DB :=
  if db.players.any (fun p => p.name == n) then db
  else { db with players := db.players ++ [⟨db.nextPlayerId, n⟩],
                 nextPlayerId := db.nextPlayerId + 1 }

/-- db.py add_player: inserts the stripped name, ignoring duplicates. -/
def add_player (name : String) (db : DB) : DB :=
  insertOrIgnorePlayer (pyStrip name) db

/-- db.py init_db: create tables (a no-op on the embedded state) and seed
the players Kristian and Johan when the players table is empty. -/
def init_db (db : DB) : DB :=
  if db.players.length == 0 then
    insertOrIgnorePlayer "Johan" (insertOrIgnorePlayer "Kristian" db)
  else db

/-- The score-insertion loop of add_game: one INSERT INTO scores per
(player id, points) entry, in iteration order. -/
def insertScores (gid : Nat) (l : List (Nat × Int)) (db : DB) : DB :=
  l.foldl
    (fun d pp =>
      { d with scores := d.scores ++ [⟨d.nextScoreId, gid, pp.1, pp.2⟩],
               nextScoreId := d.nextScoreId + 1 })
    db

/-- The write phase of add_game: insert the game row with the resolved
winner, then all score rows, as one committed unit. -/
def add_game_write (played_at : String) (l : List (Nat × Int)) (wid : Nat)
    (db : DB) : (Nat × Nat) × DB :=
  let gid := db.nextGameId
  let db1 := { db with games := db.games ++ [⟨gid, played_at, some wid⟩],
                       nextGameId := gid + 1 }
  ((gid, wid), insertScores gid l db1)

/-- db.py add_game: validates that player_points is non-empty (raising
ValueError otherwise, before any write), resolves the winner with Python
max over the keys, and writes the game and score rows. -/
def add_game (played_at : String) (player_points : List (Nat × Int))
    (db : DB) : Except String (Nat × Nat) × DB :=
  match pyMax player_points with
  | none => (.error "player_points cannot be empty", db)
  | some w =>
    let r := add_game_write played_at player_points w.1 db
    (.ok r.1, r.2)

/-- The FROM games g LEFT JOIN players p ON p.id = g.winner_id row set
shared by list_games and get_games_with_winners. -/
def gameRows (db : DB) : List GameRow :=
  db.games.flatMap (fun g =>
    match g.winner_id with
    | none => [⟨g.id, g.played_at, none⟩]
    | some wid =>
      match db.players.filter (fun p => p.id == wid) with
      | [] => [⟨g.id, g.played_at, none⟩]
      | ps => ps.map (fun p => ⟨g.id, g.played_at, some p.name⟩))

/-- db.py list_games: games with winner name, most recent first. -/
def list_games (db : DB) : List GameRow :=
  List.insertionSort (fun a b => gameDescLe a b = true) (gameRows db)

/-- db.py get_games_with_winners: games with winner name, oldest first. -/
def get_games_with_winners (db : DB) : List GameRow :=
  List.insertionSort (fun a b => gameAscLe a b = true) (gameRows db)

/-- The players p LEFT JOIN scores s ON s.player_id = p.id LEFT JOIN games g
ON g.id = s.game_id row set restricted to one player p, before grouping:
one row per score of p, paired with the matching game rows (or none). -/
def lbJoinRows (db : DB) (pid : Nat) : List (Score × Option Game) :=
  (db.scores.filter (fun s => s.player_id == pid)).flatMap (fun s =>
    match db.games.filter (fun g => g.id == s.game_id) with
    | [] => [(s, none)]
    | gs => gs.map (fun g => (s, some g)))

/-- One aggregated GROUP BY row of get_leaderboard for player p:
COALESCE(SUM(s.points),0), SUM(CASE WHEN g.winner_id = p.id THEN 1 ELSE 0
END) and COUNT(DISTINCT s.game_id) over the joined rows of p. -/
def lbRow (db : DB) (p : Player) : LBRow :=
  let rows := lbJoinRows db p.id
  { id := p.id
    name := p.name
    total_points := (rows.map (fun r => r.1.points)).sum
    wins := (rows.filter (fun r =>
      match r.2 with
      | some g => g.winner_id == some p.id
      | none => false)).length
    games_played := ((rows.map (fun r => r.1.game_id)).dedup).length }

/-- db.py get_leaderboard: one aggregated row per player, ordered by
total_points DESC, wins DESC, name ASC. -/
def get_leaderboard (db : DB) : List LBRow :=
  List.insertionSort (fun a b => lbLe a b = true) (db.players.map (lbRow db))

/-- db.py get_game_scores: the scores s JOIN players p rows of one game,
ordered by points DESC; total (the Python body catches every exception and
returns the empty list). -/
def get_game_scores (db : DB) (gid : Nat) : List (String × Int) :=
  let rows := (db.scores.filter (fun s => s.game_id == gid)).flatMap (fun s =>
    (db.players.filter (fun p => p.id == s.player_id)).map
      (fun p => (p.name, s.points)))
  List.insertionSort (fun a b => scoreRowLe a b = true) rows

/-- db.py get_all_scores: the scores JOIN games JOIN players rows, ordered
by played_at ASC, id ASC, points DESC. -/
def get_all_scores (db : DB) : List ScoreRow :=
  let rows := db.scores.flatMap (fun s =>
    (db.games.filter (fun g => g.id == s.game_id)).flatMap (fun g =>
      (db.players.filter (fun p => p.id == s.player_id)).map
        (fun p => ⟨g.id, g.played_at, p.name, s.points⟩)))
  List.insertionSort (fun a b => allScoreRowLe a b = true) rows

/-- app.py Export tab: one flattened row per (game, score) pair, iterating
list_games in order and get_game_scores per game. -/
def exportRows (db : DB) : List ExportRow :=
  (list_games db).flatMap (fun g =>
    (get_game_scores db g.game_id).map (fun r =>
      ⟨g.game_id, g.played_at, g.winner, r.1, r.2⟩))

/-- app.py cumulative-wins chart, per winner name w: rows without a winner
are dropped, rows are sorted by (winner, played_at, game_id) — for one
winner this is the played_at ASC, game_id ASC order already produced by
get_games_with_winners — each win counts 1, and cumsum forms the series. -/
def playerWinSeries (db : DB) (w : String) : List Nat :=
  cumsumFrom 0
    (((get_games_with_winners db).filter (fun r => r.winner == some w)).map
      (fun _ => 1))

/-! ### Error-boundary behaviour (section 7 of the spec)

Each db.py function runs in two phases that can raise separately: it first
acquires the store with get_conn() — sqlite3.connect plus the foreign-keys
PRAGMA — and then executes its query on the open connection.  The model
takes the acquisition outcome as an Except value and a possible
query-phase fault as an Option.  In get_game_scores the line
with closing(get_conn()) stands before the try, so an acquisition fault
propagates even there; only its query phase is wrapped in try/except
returning [].  No other read and no write catches anything. -/

def get_leaderboardE (acq : Except String DB) (qfault : Option String) :
    Except String (List LBRow) :=
  match acq with
  | .error e => .error e
  | .ok db =>
    match qfault with
    | some e => .error e
    | none => .ok (get_leaderboard db)

def list_gamesE (acq : Except String DB) (qfault : Option String) :
    Except String (List GameRow) :=
  match acq with
  | .error e => .error e
  | .ok db =>
    match qfault with
    | some e => .error e
    | none => .ok (list_games db)

def get_all_scoresE (acq : Except String DB) (qfault : Option String) :
    Except String (List ScoreRow) :=
  match acq with
  | .error e => .error e
  | .ok db =>
    match qfault with
    | some e => .error e
    | none => .ok (get_all_scores db)

def get_games_with_winnersE (acq : Except String DB)
    (qfault : Option String) : Except String (List GameRow) :=
  match acq with
  | .error e => .error e
  | .ok db =>
    match qfault with
    | some e => .error e
    | none => .ok (get_games_with_winners db)

/-- get_game_scores: the with closing(get_conn()) line runs before the
try, so an acquisition fault propagates; the try/except around the query
catches any query-phase exception and returns the empty list. -/
def get_game_scoresE (acq : Except String DB) (qfault : Option String)
    (gid : Nat) : Except String (List (String × Int)) :=
  match acq with
  | .error e => .error e
  | .ok db =>
    match qfault with
    | some _ => .ok []
    | none => .ok (get_game_scores db gid)

def add_playerE (name : String) (acq : Except String DB)
    (qfault : Option String) : Except String DB :=
  match acq with
  | .error e => .error e
  | .ok db =>
    match qfault with
    | some e => .error e
    | none => .ok (add_player name db)

def add_gameE (played_at : String) (player_points : List (Nat × Int))
    (acq : Except String DB) (qfault : Option String) :
    Except String ((Nat × Nat) × DB) :=
  match pyMax player_points with
  | none => .error "player_points cannot be empty"
  | some w =>
    match acq with
    | .error e => .error e
    | .ok db =>
      match qfault with
      | some e => .error e
      | none => .ok (add_game_write played_at player_points w.1 db)

/-! ### Store invariants

These hold of every state the schema and the API can produce: ids are
PRIMARY KEYs, names are UNIQUE, each (game, player) receives at most one
score row per game (one dict entry per player), scores reference existing
rows (foreign keys), and add_game always gives the winner a score row. -/

def WellFormed (db : DB) : Prop :=
  (db.players.map (fun p => p.id)).Nodup ∧
  (db.players.map (fun p => p.name)).Nodup ∧
  (db.games.map (fun g => g.id)).Nodup ∧
  (db.scores.map (fun s => (s.game_id, s.player_id))).Nodup ∧
  (∀ s ∈ db.scores, ∃ g ∈ db.games, g.id = s.game_id) ∧
  (∀ s ∈ db.scores, ∃ p ∈ db.players, p.id = s.player_id) ∧
  (∀ g ∈ db.games, ∀ wid, g.winner_id = some wid →
    ∃ s ∈ db.scores, s.game_id = g.id ∧ s.player_id = wid)

instance (db : DB) : Decidable (WellFormed db) := by
  unfold WellFormed; infer_instance

/-! ### Derived row constructors, order predicates and sample stores -/

def oneDB : DB := ⟨[⟨1, "Ada"⟩], [], [], 2, 1, 1⟩

/-- Text order a at-most b under BINARY collation. -/
def StrLe (a b : String) : Prop := strLt b a = false

/-- The leaderboard ordering: total_points descending, then wins
descending, then name ascending. -/
def LBOrder (a b : LBRow) : Prop :=
  b.total_points < a.total_points ∨
  (a.total_points = b.total_points ∧
    (b.wins < a.wins ∨ (a.wins = b.wins ∧ StrLe a.name b.name)))

/-- Listing order of list_games: most recent first, that is played_at
descending then game id descending. -/
def GameBefore (a b : GameRow) : Prop :=
  strLt b.played_at a.played_at = true ∨
  (a.played_at = b.played_at ∧ b.game_id ≤ a.game_id)

/-- The per-score win test of the leaderboard join after the collapse: the
joined game of the score, when it exists, has the player as winner. -/
def wonByViaFind (db : DB) (pid : Nat) (s : Score) : Bool :=
  match db.games.find? (fun g => g.id == s.game_id) with
  | some g => g.winner_id == some pid
  | none => false

def sampleDB : DB :=
  ⟨[⟨1, "Alice"⟩, ⟨2, "Bob"⟩],
   [⟨1, "2024-01-01T10:00:00", some 2⟩],
   [⟨1, 1, 1, 5⟩, ⟨2, 1, 2, 8⟩],
   3, 2, 3⟩

/-- The single joined row of one game under the PRIMARY KEY invariants:
the winner name resolved through the players table, or none. -/
def gameRowOf (db : DB) (g : Game) : GameRow :=
  ⟨g.id, g.played_at,
    match g.winner_id with
    | none => none
    | some wid =>
      match db.players.find? (fun p => p.id == wid) with
      | some p => some p.name
      | none => none⟩

/-- The (player name, points) pair a score row joins to under the PRIMARY
KEY invariants. -/
def scorePairOf (db : DB) (s : Score) : String × Int :=
  (match db.players.find? (fun p => p.id == s.player_id) with
   | some p => p.name
   | none => "", s.points)

/-- The denormalized export row one score row flattens to under the
PRIMARY KEY invariants: its game fields and resolved names. -/
def expectedExportRow (db : DB) (s : Score) : ExportRow :=
  ⟨s.game_id,
   (match db.games.find? (fun g => g.id == s.game_id) with
    | some g => g.played_at
    | none => ""),
   (match db.games.find? (fun g => g.id == s.game_id) with
    | some g => (gameRowOf db g).winner
    | none => none),
   (scorePairOf db s).1,
   s.points⟩

/-! ### Python max: the first maximal element wins ties -/

lemma pyMaxAux_spec (l : List (Nat × Int)) (best : Nat × Int) :
    (pyMaxAux best l = best ∧ ∀ p ∈ l, p.2 ≤ best.2) ∨
    (∃ l₁ m l₂, l = l₁ ++ m :: l₂ ∧ pyMaxAux best l = m ∧ best.2 < m.2 ∧
      (∀ p ∈ l₁, p.2 < m.2) ∧ (∀ p ∈ l₂, p.2 ≤ m.2)) := by
  induction l generalizing best with
  | nil => exact Or.inl ⟨rfl, by simp⟩
  | cons p ps ih =>
    by_cases h : best.2 < p.2
    · have hstep : pyMaxAux best (p :: ps) = pyMaxAux p ps := by
        simp [pyMaxAux, h]
      rcases ih p with ⟨heq, hall⟩ | ⟨l₁, m, l₂, hsplit, heq, hlt, hl₁, hl₂⟩
      · exact Or.inr ⟨[], p, ps, rfl, by rw [hstep, heq], h, by simp, hall⟩
      · refine Or.inr ⟨p :: l₁, m, l₂, by simp [hsplit], by rw [hstep, heq],
          lt_trans h hlt, ?_, hl₂⟩
        intro q hq
        rcases List.mem_cons.mp hq with hq | hq
        · rw [hq]; exact hlt
        · exact hl₁ q hq
    · have hstep : pyMaxAux best (p :: ps) = pyMaxAux best ps := by
        simp [pyMaxAux, h]
      rcases ih best with ⟨heq, hall⟩ | ⟨l₁, m, l₂, hsplit, heq, hlt, hl₁, hl₂⟩
      · refine Or.inl ⟨by rw [hstep, heq], ?_⟩
        intro q hq
        rcases List.mem_cons.mp hq with hq | hq
        · rw [hq]; exact le_of_not_lt h
        · exact hall q hq
      · refine Or.inr ⟨p :: l₁, m, l₂, by simp [hsplit], by rw [hstep, heq],
          hlt, ?_, hl₂⟩
        intro q hq
        rcases List.mem_cons.mp hq with hq | hq
        · rw [hq]; exact lt_of_le_of_lt (le_of_not_lt h) hlt
        · exact hl₁ q hq

lemma pyMax_spec (l : List (Nat × Int)) (h : l ≠ []) :
    ∃ l₁ m l₂, l = l₁ ++ m :: l₂ ∧ pyMax l = some m ∧
      (∀ p ∈ l₁, p.2 < m.2) ∧ (∀ p ∈ l₂, p.2 ≤ m.2) := by
  match l with
  | [] => exact absurd rfl h
  | p :: ps =>
    rcases pyMaxAux_spec ps p with ⟨heq, hall⟩ | ⟨l₁, m, l₂, hsplit, heq, hlt, hl₁, hl₂⟩
    · exact ⟨[], p, ps, rfl, by simp [pyMax, heq], by simp, hall⟩
    · refine ⟨p :: l₁, m, l₂, by simp [hsplit], by simp [pyMax, heq], ?_, hl₂⟩
      intro q hq
      rcases List.mem_cons.mp hq with hq | hq
      · rw [hq]; exact hlt
      · exact hl₁ q hq

lemma insertScores_games (gid : Nat) :
    ∀ (l : List (Nat × Int)) (db : DB), (insertScores gid l db).games = db.games
  | [], _ => rfl
  | _ :: ps, _ => insertScores_games gid ps _

lemma insertScores_players (gid : Nat) :
    ∀ (l : List (Nat × Int)) (db : DB), (insertScores gid l db).players = db.players
  | [], _ => rfl
  | _ :: ps, _ => insertScores_players gid ps _

/-- C1: for every non-empty points mapping, add_game returns as winner the
key whose value is maximal — on ties the first such key in input order —
and stores the game row with that winner: the mapping splits as
l₁ ++ (w, v) :: l₂ with every earlier value strictly below v and every
later value at most v, add_game succeeds returning winner w, and the new
game row carries winner_id w. -/
theorem add_game_winner_first_max (pa : String) (l : List (Nat × Int))
    (db : DB) (h : l ≠ []) :
    ∃ l₁ w v l₂,
      l = l₁ ++ (w, v) :: l₂ ∧
      (∀ p ∈ l₁, p.2 < v) ∧ (∀ p ∈ l₂, p.2 ≤ v) ∧
      (add_game pa l db).1 = .ok (db.nextGameId, w) ∧
      (add_game pa l db).2.games = db.games ++ [⟨db.nextGameId, pa, some w⟩] := by
  obtain ⟨l₁, m, l₂, hsplit, hmax, hl₁, hl₂⟩ := pyMax_spec l h
  refine ⟨l₁, m.1, m.2, l₂, by simpa using hsplit, hl₁, hl₂, ?_, ?_⟩
  · simp [add_game, hmax, add_game_write]
  · simp [add_game, hmax, add_game_write, insertScores_games]

theorem add_game_winner_first_max_witness :
    ∃ l₁ w v l₂,
      [((1 : Nat), (3 : Int)), (2, 7), (3, 7)] = l₁ ++ (w, v) :: l₂ ∧
      (∀ p ∈ l₁, p.2 < v) ∧ (∀ p ∈ l₂, p.2 ≤ v) ∧
      (add_game "2024-01-01T10:00:00" [(1, 3), (2, 7), (3, 7)] emptyDB).1
        = .ok (emptyDB.nextGameId, w) ∧
      (add_game "2024-01-01T10:00:00" [(1, 3), (2, 7), (3, 7)] emptyDB).2.games
        = emptyDB.games ++ [⟨emptyDB.nextGameId, "2024-01-01T10:00:00", some w⟩] :=
  add_game_winner_first_max "2024-01-01T10:00:00" [(1, 3), (2, 7), (3, 7)]
    emptyDB (by simp)

/-- C4: add_game signals a validation error exactly when the points mapping
is empty, and in that case it raises before any write, leaving the stored
state unchanged. -/
theorem add_game_empty_iff_error (pa : String) (l : List (Nat × Int))
    (db : DB) :
    ((∃ e, (add_game pa l db).1 = .error e) ↔ l = []) ∧
    (l = [] → (add_game pa l db).2 = db) := by
  constructor
  · constructor
    · rintro ⟨e, he⟩
      cases l with
      | nil => rfl
      | cons p ps => simp [add_game, pyMax] at he
    · rintro rfl
      exact ⟨"player_points cannot be empty", rfl⟩
  · rintro rfl
    rfl

theorem add_game_empty_iff_error_witness :
    ((∃ e, (add_game "2024-01-01T10:00:00" [] emptyDB).1 = .error e)
      ↔ ([] : List (Nat × Int)) = []) ∧
    (([] : List (Nat × Int)) = [] →
      (add_game "2024-01-01T10:00:00" [] emptyDB).2 = emptyDB) :=
  add_game_empty_iff_error "2024-01-01T10:00:00" [] emptyDB

/-! ### Idempotence of whitespace stripping -/

lemma dropWhile_dropWhile {α : Type} (p : α → Bool) (l : List α) :
    (l.dropWhile p).dropWhile p = l.dropWhile p := by
  induction l with
  | nil => rfl
  | cons a as ih =>
    by_cases h : p a
    · simp [List.dropWhile_cons, h, ih]
    · simp [List.dropWhile_cons, h]

lemma dropWhile_of_prefix_eq_self {α : Type} (p : α → Bool) {x y : List α}
    (hx : x.dropWhile p = x) (hyx : y <+: x) : y.dropWhile p = y := by
  cases y with
  | nil => rfl
  | cons a as =>
    cases x with
    | nil =>
      exact absurd (List.IsPrefix.length_le hyx) (by simp)
    | cons b bs =>
      obtain ⟨hab, _⟩ := List.cons_prefix_cons.mp hyx
      have hpb : p b = false := by
        by_contra hpb
        rw [Bool.not_eq_false] at hpb
        rw [List.dropWhile_cons, if_pos hpb] at hx
        have hlen := congrArg List.length hx
        have hle := (List.dropWhile_suffix (l := bs) p).sublist.length_le
        simp only [List.length_cons] at hlen
        omega
      rw [List.dropWhile_cons, hab, hpb]
      simp

lemma stripChars_idem (l : List Char) :
    stripChars (stripChars l) = stripChars l := by
  have hxfix : (l.dropWhile Char.isWhitespace).dropWhile Char.isWhitespace
      = l.dropWhile Char.isWhitespace := dropWhile_dropWhile _ l
  have hpre : ((l.dropWhile Char.isWhitespace).reverse.dropWhile
        Char.isWhitespace).reverse <+: l.dropWhile Char.isWhitespace := by
    have h := List.reverse_prefix.mpr
      (List.dropWhile_suffix (l := (l.dropWhile Char.isWhitespace).reverse)
        Char.isWhitespace)
    simpa using h
  unfold stripChars
  rw [dropWhile_of_prefix_eq_self Char.isWhitespace hxfix hpre, List.reverse_reverse,
    dropWhile_dropWhile]

lemma pyStrip_idem (s : String) : pyStrip (pyStrip s) = pyStrip s := by
  show (⟨stripChars (stripChars s.data)⟩ : String) = pyStrip s
  rw [stripChars_idem]
  rfl

lemma pyStrip_of_all_whitespace {s : String}
    (h : ∀ c ∈ s.data, c.isWhitespace) : pyStrip s = "" := by
  have h1 : s.data.dropWhile Char.isWhitespace = [] := by
    rw [List.dropWhile_eq_nil_iff]
    exact fun c hc => h c hc
  show (⟨stripChars s.data⟩ : String) = ""
  rw [stripChars, h1]
  rfl

/-- C10: add_player inserts the name with surrounding whitespace stripped:
add_player on a name and on its stripped form act identically on the
store, two arguments differing only in surrounding whitespace target the
same player row, and a whitespace-only argument inserts a player whose
name is the empty string. -/
theorem add_player_strips_whitespace (s t name : String) (db : DB)
    (hst : pyStrip s = pyStrip t)
    (hws : ∀ c ∈ name.data, c.isWhitespace)
    (hno : ∀ p ∈ db.players, p.name ≠ "") :
    add_player s db = add_player (pyStrip s) db ∧
    add_player s db = add_player t db ∧
    (add_player name db).players = db.players ++ [⟨db.nextPlayerId, ""⟩] := by
  refine ⟨?_, ?_, ?_⟩
  · show insertOrIgnorePlayer (pyStrip s) db
      = insertOrIgnorePlayer (pyStrip (pyStrip s)) db
    rw [pyStrip_idem]
  · show insertOrIgnorePlayer (pyStrip s) db
      = insertOrIgnorePlayer (pyStrip t) db
    rw [hst]
  · have hfalse : db.players.any (fun p => p.name == "") = false := by
      rw [List.any_eq_false]
      intro p hp
      simpa using hno p hp
    rw [add_player, pyStrip_of_all_whitespace hws, insertOrIgnorePlayer, hfalse]
    simp

theorem add_player_strips_whitespace_witness :
    add_player "  Ada " emptyDB = add_player (pyStrip "  Ada ") emptyDB ∧
    add_player "  Ada " emptyDB = add_player "Ada " emptyDB ∧
    (add_player "  " emptyDB).players
      = emptyDB.players ++ [⟨emptyDB.nextPlayerId, ""⟩] :=
  add_player_strips_whitespace "  Ada " "Ada " "  " emptyDB (by decide)
    (by decide) (by decide)

/-- C8: when the players table is non-empty init_db changes nothing, and on
the empty database it seeds exactly the two default players Kristian and
Johan, whose leaderboard rows on the otherwise empty database are the only
rows, all aggregates zero, ordered by name. -/
theorem init_db_seeds_defaults :
    (∀ db : DB, db.players ≠ [] → init_db db = db) ∧
    (init_db emptyDB).players = [⟨1, "Kristian"⟩, ⟨2, "Johan"⟩] ∧
    get_leaderboard (init_db emptyDB) =
      [⟨2, "Johan", 0, 0, 0⟩, ⟨1, "Kristian", 0, 0, 0⟩] := by
  refine ⟨?_, by decide, by decide⟩
  intro db h
  have hne : (db.players.length == 0) = false := by
    simp [List.length_eq_zero, h]
  rw [init_db, hne]
  simp

theorem init_db_seeds_defaults_witness : init_db oneDB = oneDB :=
  init_db_seeds_defaults.1 oneDB (by decide)

/-- C6 counterexample: the reads do not uniformly degrade store errors to
an empty result — get_leaderboard propagates a store fault instead of
returning an empty list, and even get_game_scores propagates a fault
raised while acquiring the connection (get_conn() runs before its try),
refuting the claim that every read query catches any unexpected store
error at its boundary and returns an empty result. -/
theorem read_error_not_all_suppressed :
    get_leaderboardE (.error "disk I/O error") none = .error "disk I/O error" ∧
    get_leaderboardE (.error "disk I/O error") none ≠ .ok [] ∧
    get_game_scoresE (.error "unable to open database file") none 1
      = .error "unable to open database file" :=
  ⟨rfl, by simp [get_leaderboardE], rfl⟩

/-- C6 amended: error suppression exists only in get_game_scores and only
for its query phase — a fault raised while running its query is caught
and the empty list returned — while a store fault during connection
acquisition propagates even from get_game_scores, because get_conn() runs
before its try; every other read query (get_leaderboard, list_games,
get_all_scores, get_games_with_winners) propagates faults of both phases,
and so do the writes add_player and add_game (once add_game's input
validation has passed). -/
theorem read_error_boundary (e qe : String) (qf : Option String)
    (gid : Nat) (pa n : String) (l : List (Nat × Int)) (db : DB)
    (hl : l ≠ []) :
    get_game_scoresE (.ok db) (some qe) gid = .ok [] ∧
    get_game_scoresE (.error e) qf gid = .error e ∧
    get_game_scoresE (.ok db) none gid = .ok (get_game_scores db gid) ∧
    get_leaderboardE (.error e) qf = .error e ∧
    get_leaderboardE (.ok db) (some qe) = .error qe ∧
    list_gamesE (.error e) qf = .error e ∧
    list_gamesE (.ok db) (some qe) = .error qe ∧
    get_all_scoresE (.error e) qf = .error e ∧
    get_all_scoresE (.ok db) (some qe) = .error qe ∧
    get_games_with_winnersE (.error e) qf = .error e ∧
    get_games_with_winnersE (.ok db) (some qe) = .error qe ∧
    add_playerE n (.error e) qf = .error e ∧
    add_playerE n (.ok db) (some qe) = .error qe ∧
    add_gameE pa l (.error e) qf = .error e ∧
    add_gameE pa l (.ok db) (some qe) = .error qe := by
  obtain ⟨l₁, m, l₂, _, hmax, _, _⟩ := pyMax_spec l hl
  refine ⟨rfl, rfl, rfl, rfl, rfl, rfl, rfl, rfl, rfl, rfl, rfl, rfl, rfl,
    ?_, ?_⟩
  · simp [add_gameE, hmax]
  · simp [add_gameE, hmax]

theorem read_error_boundary_witness :
    get_game_scoresE (.ok emptyDB) (some "qboom") 1 = .ok [] ∧
    get_game_scoresE (.error "boom") none 1 = .error "boom" ∧
    get_game_scoresE (.ok emptyDB) none 1
      = .ok (get_game_scores emptyDB 1) ∧
    get_leaderboardE (.error "boom") none = .error "boom" ∧
    get_leaderboardE (.ok emptyDB) (some "qboom") = .error "qboom" ∧
    list_gamesE (.error "boom") none = .error "boom" ∧
    list_gamesE (.ok emptyDB) (some "qboom") = .error "qboom" ∧
    get_all_scoresE (.error "boom") none = .error "boom" ∧
    get_all_scoresE (.ok emptyDB) (some "qboom") = .error "qboom" ∧
    get_games_with_winnersE (.error "boom") none = .error "boom" ∧
    get_games_with_winnersE (.ok emptyDB) (some "qboom") = .error "qboom" ∧
    add_playerE "Ada" (.error "boom") none = .error "boom" ∧
    add_playerE "Ada" (.ok emptyDB) (some "qboom") = .error "qboom" ∧
    add_gameE "2024-01-01T10:00:00" [(1, 5)] (.error "boom") none
      = .error "boom" ∧
    add_gameE "2024-01-01T10:00:00" [(1, 5)] (.ok emptyDB) (some "qboom")
      = .error "qboom" :=
  read_error_boundary "boom" "qboom" none 1 "2024-01-01T10:00:00" "Ada"
    [(1, 5)] emptyDB (by simp)

/-! ### The lexicographic character comparison is a linear order -/

lemma charListLt_asymm : ∀ (a b : List Char), charListLt a b = true →
    charListLt b a = false := by
  intro a
  induction a with
  | nil =>
    intro b h
    cases b with
    | nil => simp [charListLt] at h
    | cons y ys => simp [charListLt]
  | cons x xs ih =>
    intro b h
    cases b with
    | nil => simp [charListLt] at h
    | cons y ys =>
      rw [charListLt] at h ⊢
      by_cases hxy : x < y
      · rw [if_neg (lt_asymm hxy), if_pos hxy]
      · by_cases hyx : y < x
        · rw [if_neg hxy, if_pos hyx] at h
          exact absurd h (by simp)
        · have heq : x = y := le_antisymm (le_of_not_lt hyx) (le_of_not_lt hxy)
          subst heq
          rw [if_neg hxy, if_neg hxy] at h ⊢
          exact ih ys h

lemma charListLt_trans : ∀ (a b c : List Char), charListLt a b = true →
    charListLt b c = true → charListLt a c = true := by
  intro a
  induction a with
  | nil =>
    intro b c h1 h2
    cases b with
    | nil => simp [charListLt] at h1
    | cons y ys =>
      cases c with
      | nil => simp [charListLt] at h2
      | cons z zs => simp [charListLt]
  | cons x xs ih =>
    intro b c h1 h2
    cases b with
    | nil => simp [charListLt] at h1
    | cons y ys =>
      cases c with
      | nil => simp [charListLt] at h2
      | cons z zs =>
        rw [charListLt] at h1 h2 ⊢
        by_cases hxy : x < y
        · by_cases hyz : y < z
          · rw [if_pos (lt_trans hxy hyz)]
          · by_cases hzy : z < y
            · rw [if_neg hyz, if_pos hzy] at h2
              exact absurd h2 (by simp)
            · have heq : y = z := le_antisymm (le_of_not_lt hzy) (le_of_not_lt hyz)
              subst heq
              rw [if_pos hxy]
        · by_cases hyx : y < x
          · rw [if_neg hxy, if_pos hyx] at h1
            exact absurd h1 (by simp)
          · have heq : x = y := le_antisymm (le_of_not_lt hyx) (le_of_not_lt hxy)
            subst heq
            rw [if_neg hxy, if_neg hxy] at h1
            by_cases hxz : x < z
            · rw [if_pos hxz]
            · by_cases hzx : z < x
              · rw [if_neg hxz, if_pos hzx] at h2
                exact absurd h2 (by simp)
              · rw [if_neg hxz, if_neg hzx] at h2 ⊢
                exact ih ys zs h1 h2

lemma charListLt_conn : ∀ (a b : List Char), charListLt a b = false →
    charListLt b a = false → a = b := by
  intro a
  induction a with
  | nil =>
    intro b h1 _
    cases b with
    | nil => rfl
    | cons y ys => simp [charListLt] at h1
  | cons x xs ih =>
    intro b h1 h2
    cases b with
    | nil => simp [charListLt] at h2
    | cons y ys =>
      rw [charListLt] at h1 h2
      by_cases hxy : x < y
      · rw [if_pos hxy] at h1
        exact absurd h1 (by simp)
      · by_cases hyx : y < x
        · rw [if_pos hyx] at h2
          exact absurd h2 (by simp)
        · have heq : x = y := le_antisymm (le_of_not_lt hyx) (le_of_not_lt hxy)
          subst heq
          rw [if_neg hxy, if_neg hxy] at h1 h2
          rw [ih ys h1 h2]

lemma strLt_asymm {a b : String} (h : strLt a b = true) : strLt b a = false :=
  charListLt_asymm a.data b.data h

lemma strLt_trans {a b c : String} (h1 : strLt a b = true)
    (h2 : strLt b c = true) : strLt a c = true :=
  charListLt_trans a.data b.data c.data h1 h2

lemma strLt_conn {a b : String} (h1 : strLt a b = false)
    (h2 : strLt b a = false) : a = b := by
  have h := charListLt_conn a.data b.data h1 h2
  cases a
  cases b
  exact congrArg String.mk (by simpa using h)

lemma strLt_irrefl (a : String) : strLt a a = false := by
  by_cases h : strLt a a = true
  · exact charListLt_asymm a.data a.data h
  · exact Bool.not_eq_true _ |>.mp h

lemma strLt_false_trans {a b c : String} (h1 : strLt b a = false)
    (h2 : strLt c b = false) : strLt c a = false := by
  by_cases hca : strLt c a = true
  · by_cases hbc : strLt b c = true
    · have hba := strLt_trans hbc hca
      rw [hba] at h1
      exact absurd h1 (by simp)
    · have heq := strLt_conn (Bool.not_eq_true _ |>.mp hbc) h2
      rw [← heq] at hca
      rw [hca] at h1
      exact absurd h1 (by simp)
  · exact Bool.not_eq_true _ |>.mp hca

/-! ### Propositional readings of the ORDER BY comparisons -/

lemma lbLe_iff (a b : LBRow) : lbLe a b = true ↔ LBOrder a b := by
  unfold lbLe LBOrder StrLe
  by_cases h1 : b.total_points < a.total_points
  · simp [h1]
  · by_cases h2 : a.total_points < b.total_points
    · simp [h1, h2, ne_of_lt h2]
    · have heq : a.total_points = b.total_points :=
        le_antisymm (le_of_not_lt h1) (le_of_not_lt h2)
      by_cases h3 : b.wins < a.wins
      · simp [h1, h2, h3, heq]
      · by_cases h4 : a.wins < b.wins
        · simp [h1, h2, h3, h4, heq, ne_of_lt h4]
        · have hweq : a.wins = b.wins :=
            le_antisymm (le_of_not_lt h3) (le_of_not_lt h4)
          simp [h1, h2, h3, h4, heq, hweq]

lemma lbLe_total (a b : LBRow) : lbLe a b = true ∨ lbLe b a = true := by
  rw [lbLe_iff, lbLe_iff]
  unfold LBOrder StrLe
  rcases lt_trichotomy a.total_points b.total_points with h | h | h
  · exact Or.inr (Or.inl h)
  · rcases lt_trichotomy a.wins b.wins with hw | hw | hw
    · exact Or.inr (Or.inr ⟨h.symm, Or.inl hw⟩)
    · by_cases hs : strLt b.name a.name = true
      · exact Or.inr (Or.inr ⟨h.symm, Or.inr ⟨hw.symm, strLt_asymm hs⟩⟩)
      · exact Or.inl (Or.inr ⟨h, Or.inr ⟨hw, Bool.not_eq_true _ |>.mp hs⟩⟩)
    · exact Or.inl (Or.inr ⟨h, Or.inl hw⟩)
  · exact Or.inl (Or.inl h)

lemma lbLe_trans (a b c : LBRow) (h1 : lbLe a b = true)
    (h2 : lbLe b c = true) : lbLe a c = true := by
  rw [lbLe_iff] at h1 h2 ⊢
  unfold LBOrder StrLe at h1 h2 ⊢
  rcases h1 with h1 | ⟨he1, hi1⟩
  · rcases h2 with h2 | ⟨he2, hi2⟩
    · exact Or.inl (by omega)
    · exact Or.inl (by omega)
  · rcases h2 with h2 | ⟨he2, hi2⟩
    · exact Or.inl (by omega)
    · rcases hi1 with hw1 | ⟨hwe1, hs1⟩
      · rcases hi2 with hw2 | ⟨hwe2, hs2⟩
        · exact Or.inr ⟨by omega, Or.inl (by omega)⟩
        · exact Or.inr ⟨by omega, Or.inl (by omega)⟩
      · rcases hi2 with hw2 | ⟨hwe2, hs2⟩
        · exact Or.inr ⟨by omega, Or.inl (by omega)⟩
        · exact Or.inr ⟨he1.trans he2,
            Or.inr ⟨hwe1.trans hwe2, strLt_false_trans hs1 hs2⟩⟩

lemma scoreRowLe_total (a b : String × Int) :
    scoreRowLe a b = true ∨ scoreRowLe b a = true := by
  simp only [scoreRowLe, decide_eq_true_eq]
  omega

lemma scoreRowLe_trans (a b c : String × Int) (h1 : scoreRowLe a b = true)
    (h2 : scoreRowLe b c = true) : scoreRowLe a c = true := by
  simp only [scoreRowLe, decide_eq_true_eq] at h1 h2 ⊢
  omega

lemma gameDescLe_iff (a b : GameRow) :
    gameDescLe a b = true ↔ GameBefore a b := by
  unfold gameDescLe GameBefore
  by_cases h1 : strLt b.played_at a.played_at = true
  · simp [h1]
  · have h1f : strLt b.played_at a.played_at = false :=
      Bool.not_eq_true _ |>.mp h1
    by_cases h2 : strLt a.played_at b.played_at = true
    · have hne : a.played_at ≠ b.played_at := by
        intro he
        rw [he, strLt_irrefl] at h2
        exact absurd h2 (by simp)
      simp [h1f, h2, hne]
    · have h2f : strLt a.played_at b.played_at = false :=
        Bool.not_eq_true _ |>.mp h2
      have heq : a.played_at = b.played_at := strLt_conn h2f h1f
      simp [h1f, h2f, heq, strLt_irrefl]

lemma gameDescLe_total (a b : GameRow) :
    gameDescLe a b = true ∨ gameDescLe b a = true := by
  rw [gameDescLe_iff, gameDescLe_iff]
  unfold GameBefore
  by_cases h1 : strLt b.played_at a.played_at = true
  · exact Or.inl (Or.inl h1)
  · by_cases h2 : strLt a.played_at b.played_at = true
    · exact Or.inr (Or.inl h2)
    · have heq : a.played_at = b.played_at :=
        strLt_conn (Bool.not_eq_true _ |>.mp h2) (Bool.not_eq_true _ |>.mp h1)
      rcases le_total a.game_id b.game_id with hle | hle
      · exact Or.inr (Or.inr ⟨heq.symm, hle⟩)
      · exact Or.inl (Or.inr ⟨heq, hle⟩)

lemma gameDescLe_trans (a b c : GameRow) (h1 : gameDescLe a b = true)
    (h2 : gameDescLe b c = true) : gameDescLe a c = true := by
  rw [gameDescLe_iff] at h1 h2 ⊢
  unfold GameBefore at h1 h2 ⊢
  rcases h1 with h1 | ⟨he1, hi1⟩
  · rcases h2 with h2 | ⟨he2, hi2⟩
    · exact Or.inl (strLt_trans h2 h1)
    · exact Or.inl (by rw [← he2]; exact h1)
  · rcases h2 with h2 | ⟨he2, hi2⟩
    · exact Or.inl (by rw [he1]; exact h2)
    · exact Or.inr ⟨he1.trans he2, le_trans hi2 hi1⟩

/-! ### Primary-key lookups under the Nodup invariants -/

lemma filter_key_eq_singleton {α : Type} (key : α → Nat) {l : List α}
    (hnd : (l.map key).Nodup) {x : α} (hx : x ∈ l) :
    l.filter (fun y => key y == key x) = [x] := by
  induction l with
  | nil => cases hx
  | cons a as ih =>
    rw [List.map_cons, List.nodup_cons] at hnd
    rcases List.mem_cons.mp hx with heq | hx2
    · subst heq
      rw [List.filter_cons_of_pos (by simp)]
      have hnil : as.filter (fun y => key y == key x) = [] := by
        rw [List.filter_eq_nil_iff]
        intro y hy
        simp only [beq_iff_eq]
        intro hkey
        exact hnd.1 (hkey ▸ List.mem_map_of_mem key hy)
      rw [hnil]
    · have hne : key a ≠ key x := by
        intro hk
        exact hnd.1 (hk ▸ List.mem_map_of_mem key hx2)
      rw [List.filter_cons_of_neg (by simp [hne]), ih hnd.2 hx2]

lemma find?_of_filter_singleton {α : Type} {p : α → Bool} {l : List α} {x : α}
    (h : l.filter p = [x]) : l.find? p = some x := by
  induction l with
  | nil => simp at h
  | cons a as ih =>
    by_cases hpa : p a = true
    · rw [List.filter_cons_of_pos hpa] at h
      rw [List.cons.injEq] at h
      rw [List.find?_cons_of_pos _ hpa, h.1]
    · have hpaf : p a = false := Bool.not_eq_true _ |>.mp hpa
      rw [List.filter_cons_of_neg (by simp [hpaf])] at h
      rw [List.find?_cons_of_neg _ (by simp [hpaf])]
      exact ih h

lemma nodup_map_fst_of_pairs {l : List Score} {pid : Nat}
    (hall : ∀ s ∈ l, s.player_id = pid)
    (hnd : (l.map (fun s => (s.game_id, s.player_id))).Nodup) :
    (l.map (fun s => s.game_id)).Nodup := by
  induction l with
  | nil => simp
  | cons a as ih =>
    rw [List.map_cons, List.nodup_cons] at hnd ⊢
    refine ⟨?_, ih (fun s hs => hall s (List.mem_cons_of_mem a hs)) hnd.2⟩
    intro hmem
    obtain ⟨s, hs, hgid⟩ := List.mem_map.mp hmem
    apply hnd.1
    rw [List.mem_map]
    refine ⟨s, hs, ?_⟩
    rw [hgid, hall s (List.mem_cons_of_mem a hs), hall a (List.mem_cons_self a as)]

lemma flatMap_singleton_eq_map {α β : Type} {f : α → List β} {g : α → β}
    {m : List α} (h : ∀ s ∈ m, f s = [g s]) : m.flatMap f = m.map g := by
  induction m with
  | nil => rfl
  | cons a as ih =>
    rw [List.flatMap_cons, h a (List.mem_cons_self a as),
      ih (fun s hs => h s (List.mem_cons_of_mem a hs)), List.map_cons,
      List.singleton_append]

/-! ### The leaderboard join collapses to one row per score -/

lemma lbJoinRows_eq {db : DB} (hnd : (db.games.map (fun g => g.id)).Nodup)
    (pid : Nat) :
    lbJoinRows db pid = (db.scores.filter (fun s => s.player_id == pid)).map
      (fun s => (s, db.games.find? (fun g => g.id == s.game_id))) := by
  unfold lbJoinRows
  apply flatMap_singleton_eq_map
  intro s _
  by_cases hex : ∃ g ∈ db.games, g.id = s.game_id
  · obtain ⟨g, hg, hgidEq⟩ := hex
    have hfil : db.games.filter (fun y => y.id == s.game_id) = [g] := by
      have := filter_key_eq_singleton (fun g => g.id) hnd hg
      simp only at this
      rw [hgidEq] at this
      exact this
    rw [hfil, find?_of_filter_singleton hfil]
    rfl
  · have hnil : db.games.filter (fun g => g.id == s.game_id) = [] := by
      rw [List.filter_eq_nil_iff]
      intro g hg
      simp only [beq_iff_eq]
      exact fun h => hex ⟨g, hg, h⟩
    have hfind : db.games.find? (fun g => g.id == s.game_id) = none := by
      rw [List.find?_eq_none]
      intro g hg
      simp only [beq_iff_eq]
      exact fun h => hex ⟨g, hg, h⟩
    rw [hnil, hfind]

lemma lbRow_total_points {db : DB}
    (hnd : (db.games.map (fun g => g.id)).Nodup) (p : Player) :
    (lbRow db p).total_points
      = ((db.scores.filter (fun s => s.player_id == p.id)).map
          (fun s => s.points)).sum := by
  show ((lbJoinRows db p.id).map (fun r => r.1.points)).sum = _
  rw [lbJoinRows_eq hnd, List.map_map]
  rfl

lemma lbRow_wins {db : DB} (hwf : WellFormed db) (p : Player) :
    (lbRow db p).wins
      = (db.games.filter (fun g => g.winner_id == some p.id)).length := by
  obtain ⟨hpid, hpname, hgid, hpairs, hsg, hsp, hwin⟩ := hwf
  show ((lbJoinRows db p.id).filter (fun r =>
      match r.2 with
      | some g => g.winner_id == some p.id
      | none => false)).length = _
  rw [lbJoinRows_eq hgid, List.filter_map, List.length_map]
  show (((db.scores.filter (fun s => s.player_id == p.id)).filter
      (fun s => wonByViaFind db p.id s)).length) = _
  have hpfilter : ∀ s ∈ db.scores.filter (fun s => s.player_id == p.id),
      s.player_id = p.id := by
    intro s hs
    have h := List.of_mem_filter hs
    simpa using h
  have hndp : ((db.scores.filter (fun s => s.player_id == p.id)).map
      (fun s => (s.game_id, s.player_id))).Nodup :=
    List.Nodup.sublist ((List.filter_sublist _).map _) hpairs
  have hndA : ((db.scores.filter (fun s => s.player_id == p.id)).map
      (fun s => s.game_id)).Nodup := nodup_map_fst_of_pairs hpfilter hndp
  have hndA2 : (((db.scores.filter (fun s => s.player_id == p.id)).filter
      (fun s => wonByViaFind db p.id s)).map (fun s => s.game_id)).Nodup :=
    List.Nodup.sublist ((List.filter_sublist _).map _) hndA
  have hndB : ((db.games.filter (fun g => g.winner_id == some p.id)).map
      (fun g => g.id)).Nodup :=
    List.Nodup.sublist ((List.filter_sublist _).map _) hgid
  have hmem : ∀ gid : Nat,
      (gid ∈ ((db.scores.filter (fun s => s.player_id == p.id)).filter
        (fun s => wonByViaFind db p.id s)).map (fun s => s.game_id))
      ↔ gid ∈ (db.games.filter (fun g => g.winner_id == some p.id)).map
          (fun g => g.id) := by
    intro gid
    constructor
    · intro h
      obtain ⟨s, hs, hsgid⟩ := List.mem_map.mp h
      have hsq := List.of_mem_filter hs
      unfold wonByViaFind at hsq
      cases hfind : db.games.find? (fun g => g.id == s.game_id) with
      | none =>
        rw [hfind] at hsq
        exact absurd hsq (by simp)
      | some g =>
        rw [hfind] at hsq
        have hgmem := List.mem_of_find?_eq_some hfind
        have hgeq : g.id = s.game_id := by
          have h2 := List.find?_some hfind
          simpa using h2
        exact List.mem_map.mpr ⟨g, List.mem_filter.mpr ⟨hgmem, hsq⟩,
          by rw [hgeq, hsgid]⟩
    · intro h
      obtain ⟨g, hg, hgid2⟩ := List.mem_map.mp h
      have hgmem := List.mem_of_mem_filter hg
      have hgwin : g.winner_id = some p.id := by
        have h2 := List.of_mem_filter hg
        simpa using h2
      obtain ⟨s, hsmem, hsgid, hspid⟩ := hwin g hgmem p.id hgwin
      have hs1 : s ∈ db.scores.filter (fun s => s.player_id == p.id) :=
        List.mem_filter.mpr ⟨hsmem, by simp [hspid]⟩
      have hfil : db.games.filter (fun y => y.id == s.game_id) = [g] := by
        have h3 := filter_key_eq_singleton (fun g => g.id) hgid hgmem
        simp only at h3
        rw [← hsgid] at h3
        exact h3
      have hfind : db.games.find? (fun y => y.id == s.game_id) = some g :=
        find?_of_filter_singleton hfil
      refine List.mem_map.mpr ⟨s, List.mem_filter.mpr ⟨hs1, ?_⟩, ?_⟩
      · show wonByViaFind db p.id s = true
        unfold wonByViaFind
        rw [hfind]
        simp [hgwin]
      · rw [hsgid, hgid2]
  have hperm := (List.perm_ext_iff_of_nodup hndA2 hndB).mpr hmem
  have hlen := hperm.length_eq
  rw [List.length_map, List.length_map] at hlen
  exact hlen

lemma lbRow_no_scores {db : DB} (p : Player)
    (h : ∀ s ∈ db.scores, s.player_id ≠ p.id) :
    lbRow db p = ⟨p.id, p.name, 0, 0, 0⟩ := by
  have hnil : db.scores.filter (fun s => s.player_id == p.id) = [] := by
    rw [List.filter_eq_nil_iff]
    intro s hs
    simpa using h s hs
  unfold lbRow lbJoinRows
  rw [hnil]
  rfl

/-- C2: for every player of a well-formed store, the leaderboard row of
that player appears in get_leaderboard, its total_points is the sum of the
points of all score rows referencing the player (zero when there are
none), and its wins is the number of games whose recorded winner is the
player (zero when there are none). -/
theorem leaderboard_totals_and_wins (db : DB) (hwf : WellFormed db)
    (p : Player) (hp : p ∈ db.players) :
    lbRow db p ∈ get_leaderboard db ∧
    (lbRow db p).total_points = ((db.scores.filter
      (fun s => s.player_id == p.id)).map (fun s => s.points)).sum ∧
    (lbRow db p).wins
      = (db.games.filter (fun g => g.winner_id == some p.id)).length := by
  refine ⟨?_, lbRow_total_points hwf.2.2.1 p, lbRow_wins hwf p⟩
  simp only [get_leaderboard, List.mem_insertionSort]
  exact List.mem_map_of_mem _ hp

theorem leaderboard_totals_and_wins_witness :
    lbRow sampleDB ⟨2, "Bob"⟩ ∈ get_leaderboard sampleDB ∧
    (lbRow sampleDB ⟨2, "Bob"⟩).total_points = ((sampleDB.scores.filter
      (fun s => s.player_id == (⟨2, "Bob"⟩ : Player).id)).map
      (fun s => s.points)).sum ∧
    (lbRow sampleDB ⟨2, "Bob"⟩).wins = (sampleDB.games.filter
      (fun g => g.winner_id == some (⟨2, "Bob"⟩ : Player).id)).length :=
  leaderboard_totals_and_wins sampleDB (by decide) ⟨2, "Bob"⟩ (by decide)

/-- C3: on a well-formed store, get_leaderboard is sorted by total_points
descending, then wins descending, then name ascending, it is a
permutation of one aggregated row per player row (so exactly one row per
player, by the id filter count), and a player with no score rows appears
with the all-zero aggregates. -/
theorem leaderboard_one_row_sorted (db : DB) (hwf : WellFormed db) :
    (get_leaderboard db).Pairwise LBOrder ∧
    (get_leaderboard db).Perm (db.players.map (lbRow db)) ∧
    (∀ p ∈ db.players,
      ((get_leaderboard db).filter (fun r => r.id == p.id)).length = 1) ∧
    (∀ p ∈ db.players, (∀ s ∈ db.scores, s.player_id ≠ p.id) →
      (⟨p.id, p.name, 0, 0, 0⟩ : LBRow) ∈ get_leaderboard db) := by
  refine ⟨?_, List.perm_insertionSort _ _, ?_, ?_⟩
  · have hs := @List.sorted_insertionSort LBRow (fun a b => lbLe a b = true)
      (fun a b => instDecidableEqBool (lbLe a b) true) ⟨lbLe_total⟩
      ⟨lbLe_trans⟩ (db.players.map (lbRow db))
    exact List.Pairwise.imp (fun h => (lbLe_iff _ _).mp h) hs
  · intro p hp
    have hperm : ((get_leaderboard db).filter (fun r => r.id == p.id)).Perm
        ((db.players.map (lbRow db)).filter (fun r => r.id == p.id)) :=
      (List.perm_insertionSort _ _).filter _
    rw [hperm.length_eq, List.filter_map, List.length_map]
    have hfil : db.players.filter (fun q => q.id == p.id) = [p] := by
      have h := filter_key_eq_singleton (fun q => q.id) hwf.1 hp
      simpa using h
    have hcong : ((fun r : LBRow => r.id == p.id) ∘ lbRow db)
        = fun q : Player => q.id == p.id := rfl
    rw [hcong, hfil]
    rfl
  · intro p hp hnos
    simp only [get_leaderboard, List.mem_insertionSort]
    rw [← lbRow_no_scores p hnos]
    exact List.mem_map_of_mem _ hp

theorem leaderboard_one_row_sorted_witness :
    ((get_leaderboard sampleDB).filter
      (fun r => r.id == (⟨1, "Alice"⟩ : Player).id)).length = 1 :=
  (leaderboard_one_row_sorted sampleDB (by decide)).2.2.1 ⟨1, "Alice"⟩
    (by decide)

/-! ### Game-detail lookup (get_game_scores) -/

lemma get_game_scores_nil {db : DB} {gid : Nat}
    (h : ∀ s ∈ db.scores, s.game_id ≠ gid) : get_game_scores db gid = [] := by
  have hnil : db.scores.filter (fun s => s.game_id == gid) = [] := by
    rw [List.filter_eq_nil_iff]
    intro s hs
    simpa using h s hs
  unfold get_game_scores
  rw [hnil]
  rfl

/-- C5: get_game_scores returns the (player name, points) pairs of the
requested game sorted by points descending — precisely, its output is
sorted and is a permutation of the scores-join of that game — and for a
game identifier with no score rows, in particular for a non-existent game
on a well-formed store, it returns the empty list rather than failing
(the embedded function is total). -/
theorem game_scores_sorted_or_empty (db : DB) (gid : Nat) :
    (get_game_scores db gid).Pairwise (fun a b => b.2 ≤ a.2) ∧
    (get_game_scores db gid).Perm
      ((db.scores.filter (fun s => s.game_id == gid)).flatMap (fun s =>
        (db.players.filter (fun p => p.id == s.player_id)).map
          (fun p => (p.name, s.points)))) ∧
    ((∀ s ∈ db.scores, s.game_id ≠ gid) → get_game_scores db gid = []) ∧
    (WellFormed db → (∀ g ∈ db.games, g.id ≠ gid) →
      get_game_scores db gid = []) := by
  refine ⟨?_, List.perm_insertionSort _ _, fun h => get_game_scores_nil h, ?_⟩
  · have hs := @List.sorted_insertionSort (String × Int)
      (fun a b => scoreRowLe a b = true)
      (fun a b => instDecidableEqBool (scoreRowLe a b) true)
      ⟨scoreRowLe_total⟩ ⟨scoreRowLe_trans⟩
      ((db.scores.filter (fun s => s.game_id == gid)).flatMap (fun s =>
        (db.players.filter (fun p => p.id == s.player_id)).map
          (fun p => (p.name, s.points))))
    exact List.Pairwise.imp (fun h => of_decide_eq_true h) hs
  · intro hwf hng
    apply get_game_scores_nil
    intro s hs hEq
    obtain ⟨g, hg, hgid⟩ := hwf.2.2.2.2.1 s hs
    exact hng g hg (hgid.trans hEq)

theorem game_scores_sorted_or_empty_witness :
    get_game_scores sampleDB 99 = [] :=
  (game_scores_sorted_or_empty sampleDB 99).2.2.2 (by decide) (by decide)

/-! ### The games-to-winner-name join collapses to one row per game -/

lemma gameRows_eq {db : DB} (hwf : WellFormed db) :
    gameRows db = db.games.map (gameRowOf db) := by
  obtain ⟨hpid, hpname, hgid, hpairs, hsg, hsp, hwin⟩ := hwf
  unfold gameRows
  apply flatMap_singleton_eq_map
  intro g hg
  cases hw : g.winner_id with
  | none => simp [gameRowOf, hw]
  | some wid =>
    obtain ⟨s, hsmem, hsgid, hspid⟩ := hwin g hg wid hw
    obtain ⟨p, hpmem, hpid2⟩ := hsp s hsmem
    have hpwid : p.id = wid := by rw [hpid2, hspid]
    have hfil : db.players.filter (fun y => y.id == wid) = [p] := by
      have h := filter_key_eq_singleton (fun q => q.id) hpid hpmem
      simp only at h
      rw [hpwid] at h
      exact h
    have hfind := find?_of_filter_singleton hfil
    simp [gameRowOf, hw, hfil, hfind]

lemma winner_filter_count {db : DB} (hwf : WellFormed db) (p : Player)
    (hp : p ∈ db.players) :
    ((get_games_with_winners db).filter
      (fun r => r.winner == some p.name)).length
      = (db.games.filter (fun g => g.winner_id == some p.id)).length := by
  have hperm : ((get_games_with_winners db).filter
      (fun r => r.winner == some p.name)).Perm
      ((gameRows db).filter (fun r => r.winner == some p.name)) :=
    (List.perm_insertionSort _ _).filter _
  rw [hperm.length_eq, gameRows_eq hwf, List.filter_map, List.length_map]
  congr 1
  apply List.filter_congr
  intro g hg
  apply Bool.eq_iff_iff.mpr
  show ((gameRowOf db g).winner == some p.name) = true
    ↔ (g.winner_id == some p.id) = true
  simp only [beq_iff_eq]
  cases hw : g.winner_id with
  | none => simp [gameRowOf, hw]
  | some wid =>
    cases hfind : db.players.find? (fun y => y.id == wid) with
    | none =>
      have hne : wid ≠ p.id := by
        intro he
        rw [List.find?_eq_none] at hfind
        exact hfind p hp (by simp [he])
      simp [gameRowOf, hw, hfind]
      exact hne
    | some q =>
      have hqmem := List.mem_of_find?_eq_some hfind
      have hqid : q.id = wid := by
        have h2 := List.find?_some hfind
        simpa using h2
      by_cases he : wid = p.id
      · have hqp : q = p :=
          List.inj_on_of_nodup_map hwf.1 hqmem hp (by rw [hqid, he])
        rw [he] at hfind
        simp [gameRowOf, hw, hfind, hqp, he]
      · have hqnp : q.name ≠ p.name := by
          intro hn
          have hqp := List.inj_on_of_nodup_map hwf.2.1 hqmem hp hn
          rw [hqp] at hqid
          exact he hqid.symm
        simp [gameRowOf, hw, hfind, hqnp]
        exact he

/-! ### Cumulative sums of unit wins -/

lemma cumsumFrom_chain (acc : Nat) (l : List Nat) :
    List.Chain' (fun a b : Nat => a ≤ b) (cumsumFrom acc l) := by
  induction l generalizing acc with
  | nil => exact List.chain'_nil
  | cons x xs ih =>
    rw [cumsumFrom]
    cases xs with
    | nil => simp [cumsumFrom]
    | cons y ys =>
      rw [cumsumFrom, List.chain'_cons]
      constructor
      · exact Nat.le_add_right _ _
      · have h := ih (acc + x)
        rw [cumsumFrom] at h
        exact h

lemma cumsumFrom_ones_len_last : ∀ (n acc : Nat),
    (cumsumFrom acc (List.replicate n 1)).length = n ∧
    (cumsumFrom acc (List.replicate n 1)).getLastD acc = acc + n
  | 0, acc => ⟨rfl, rfl⟩
  | n + 1, acc => by
    rw [List.replicate_succ, cumsumFrom]
    obtain ⟨h1, h2⟩ := cumsumFrom_ones_len_last n (acc + 1)
    refine ⟨by simpa using h1, ?_⟩
    rw [List.getLastD_cons, h2]
    omega

lemma map_one_eq_replicate {α : Type} (l : List α) :
    l.map (fun _ => (1 : Nat)) = List.replicate l.length 1 := by
  induction l with
  | nil => rfl
  | cons a as ih => simp [List.replicate_succ, ih]

/-- C9: on a well-formed store, the cumulative-wins series of a player is
monotonically non-decreasing, its length and its final value both equal
the win count of that player's leaderboard row, and that row is the one
get_leaderboard reports for the player. -/
theorem cumulative_wins_matches_leaderboard (db : DB) (hwf : WellFormed db)
    (p : Player) (hp : p ∈ db.players) :
    List.Chain' (fun a b : Nat => a ≤ b) (playerWinSeries db p.name) ∧
    (playerWinSeries db p.name).length = (lbRow db p).wins ∧
    (playerWinSeries db p.name).getLastD 0 = (lbRow db p).wins ∧
    lbRow db p ∈ get_leaderboard db := by
  have hwins := lbRow_wins hwf p
  have hcount := winner_filter_count hwf p hp
  refine ⟨cumsumFrom_chain 0 _, ?_, ?_, ?_⟩
  · show (cumsumFrom 0 (((get_games_with_winners db).filter
      (fun r => r.winner == some p.name)).map (fun _ => 1))).length = _
    rw [map_one_eq_replicate, (cumsumFrom_ones_len_last _ 0).1, hcount, hwins]
  · show (cumsumFrom 0 (((get_games_with_winners db).filter
      (fun r => r.winner == some p.name)).map (fun _ => 1))).getLastD 0 = _
    rw [map_one_eq_replicate, (cumsumFrom_ones_len_last _ 0).2, hcount, hwins]
    omega
  · simp only [get_leaderboard, List.mem_insertionSort]
    exact List.mem_map_of_mem _ hp

theorem cumulative_wins_matches_leaderboard_witness :
    (playerWinSeries sampleDB (⟨2, "Bob"⟩ : Player).name).getLastD 0
      = (lbRow sampleDB ⟨2, "Bob"⟩).wins :=
  (cumulative_wins_matches_leaderboard sampleDB (by decide) ⟨2, "Bob"⟩
    (by decide)).2.2.1

/-! ### The per-game scores join collapses to one row per score -/

lemma gsRows_eq {db : DB} (hwf : WellFormed db) (gid : Nat) :
    ((db.scores.filter (fun s => s.game_id == gid)).flatMap (fun s =>
      (db.players.filter (fun p => p.id == s.player_id)).map
        (fun p => (p.name, s.points))))
    = (db.scores.filter (fun s => s.game_id == gid)).map (scorePairOf db) := by
  apply flatMap_singleton_eq_map
  intro s hs
  have hsmem : s ∈ db.scores := List.mem_of_mem_filter hs
  obtain ⟨p, hpmem, hpid⟩ := hwf.2.2.2.2.2.1 s hsmem
  have hfil : db.players.filter (fun y => y.id == s.player_id) = [p] := by
    have h := filter_key_eq_singleton (fun q => q.id) hwf.1 hpmem
    simp only at h
    rw [hpid] at h
    exact h
  rw [hfil]
  simp [scorePairOf, find?_of_filter_singleton hfil]

lemma get_game_scores_perm {db : DB} (hwf : WellFormed db) (gid : Nat) :
    (get_game_scores db gid).Perm
      ((db.scores.filter (fun s => s.game_id == gid)).map (scorePairOf db)) := by
  have h := List.perm_insertionSort (fun a b => scoreRowLe a b = true)
    ((db.scores.filter (fun s => s.game_id == gid)).flatMap (fun s =>
      (db.players.filter (fun p => p.id == s.player_id)).map
        (fun p => (p.name, s.points))))
  have h2 : ((db.scores.filter (fun s => s.game_id == gid)).flatMap (fun s =>
      (db.players.filter (fun p => p.id == s.player_id)).map
        (fun p => (p.name, s.points)))).Perm
      ((db.scores.filter (fun s => s.game_id == gid)).map (scorePairOf db)) := by
    rw [gsRows_eq hwf gid]
  exact h.trans h2

lemma get_game_scores_length {db : DB} (hwf : WellFormed db) (gid : Nat) :
    (get_game_scores db gid).length
      = (db.scores.filter (fun s => s.game_id == gid)).length := by
  rw [(get_game_scores_perm hwf gid).length_eq, List.length_map]

/-! ### Partition of the scores by their game -/

lemma flatMap_partition_perm {α : Type} (key : α → Nat) :
    ∀ (keys : List Nat) (l : List α), keys.Nodup →
      (∀ x ∈ l, key x ∈ keys) →
      (keys.flatMap (fun k => l.filter (fun x => key x == k))).Perm l := by
  intro keys
  induction keys with
  | nil =>
    intro l _ hc
    cases l with
    | nil => simp
    | cons x xs => exact absurd (hc x (List.mem_cons_self x xs)) (by simp)
  | cons k ks ih =>
    intro l hnd hc
    rw [List.flatMap_cons]
    rw [List.nodup_cons] at hnd
    have hcongr : ks.flatMap (fun k2 => l.filter (fun x => key x == k2))
        = ks.flatMap (fun k2 => (l.filter (fun x => !(key x == k))).filter
            (fun x => key x == k2)) := by
      apply List.flatMap_congr
      intro k2 hk2
      rw [List.filter_filter]
      apply List.filter_congr
      intro x _
      by_cases hxk : (key x == k2) = true
      · have hne : (key x == k) = false := by
          have hEq : key x = k2 := by simpa using hxk
          have : key x ≠ k := by
            rw [hEq]
            intro h2
            exact hnd.1 (h2 ▸ hk2)
          simpa using this
        rw [hxk, hne]
        rfl
      · have hxkf : (key x == k2) = false := Bool.not_eq_true _ |>.mp hxk
        rw [hxkf]
        rfl
    rw [hcongr]
    have hsub : ∀ x ∈ l.filter (fun x => !(key x == k)), key x ∈ ks := by
      intro x hx
      have hxmem := List.mem_of_mem_filter hx
      have hxk := List.of_mem_filter hx
      have hne : key x ≠ k := by simpa using hxk
      rcases List.mem_cons.mp (hc x hxmem) with h | h
      · exact absurd h hne
      · exact h
    have hperm2 := ih (l.filter (fun x => !(key x == k))) hnd.2 hsub
    exact (hperm2.append_left _).trans (List.filter_append_perm _ l)

/-! ### Pairwise order of a flattened listing -/

lemma pairwise_of_forall_mem {α : Type} {S : α → α → Prop} :
    ∀ {l : List α}, (∀ x ∈ l, ∀ y ∈ l, S x y) → l.Pairwise S := by
  intro l
  induction l with
  | nil => exact fun _ => List.Pairwise.nil
  | cons a as ih =>
    intro h
    refine List.Pairwise.cons ?_ (ih ?_)
    · intro y hy
      exact h a (List.mem_cons_self a as) y (List.mem_cons_of_mem a hy)
    · intro x hx y hy
      exact h x (List.mem_cons_of_mem a hx) y (List.mem_cons_of_mem a hy)

lemma pairwise_flatMap {α β : Type} {R : α → α → Prop} {S : β → β → Prop}
    {l : List α} {f : α → List β}
    (hR : l.Pairwise R)
    (hin : ∀ a ∈ l, ∀ x ∈ f a, ∀ y ∈ f a, S x y)
    (hcross : ∀ a b, R a b → ∀ x ∈ f a, ∀ y ∈ f b, S x y) :
    (l.flatMap f).Pairwise S := by
  induction l with
  | nil => exact List.Pairwise.nil
  | cons a as ih =>
    rw [List.flatMap_cons, List.pairwise_append]
    rcases List.pairwise_cons.mp hR with ⟨hra, hras⟩
    refine ⟨pairwise_of_forall_mem (hin a (List.mem_cons_self a as)),
      ih hras (fun b hb => hin b (List.mem_cons_of_mem a hb)), ?_⟩
    intro x hx y hy
    obtain ⟨b, hb, hyb⟩ := List.mem_flatMap.mp hy
    exact hcross a b (hra b hb) x hx y hyb

/-! ### Export: denormalized join of games and scores -/

lemma list_games_perm {db : DB} (hwf : WellFormed db) :
    (list_games db).Perm (db.games.map (gameRowOf db)) := by
  have h := List.perm_insertionSort (fun a b => gameDescLe a b = true)
    (gameRows db)
  have h2 : (gameRows db).Perm (db.games.map (gameRowOf db)) := by
    rw [gameRows_eq hwf]
  exact h.trans h2

lemma export_length {db : DB} (hwf : WellFormed db) :
    (exportRows db).length = (db.games.map (fun g =>
      (db.scores.filter (fun s => s.game_id == g.id)).length)).sum := by
  show ((list_games db).flatMap (fun g => (get_game_scores db g.game_id).map
    (fun r => (⟨g.game_id, g.played_at, g.winner, r.1, r.2⟩ :
      ExportRow)))).length = _
  rw [List.length_flatMap]
  have hpoint : ((list_games db).map (List.length ∘ (fun g =>
      (get_game_scores db g.game_id).map (fun r => (⟨g.game_id, g.played_at,
        g.winner, r.1, r.2⟩ : ExportRow)))))
      = (list_games db).map (fun g => (db.scores.filter
        (fun s => s.game_id == g.game_id)).length) := by
    apply List.map_congr_left
    intro r _
    show ((get_game_scores db r.game_id).map _).length = _
    rw [List.length_map, get_game_scores_length hwf]
  rw [hpoint]
  rw [((list_games_perm hwf).map (fun g => (db.scores.filter
      (fun s => s.game_id == g.game_id)).length)).sum_eq, List.map_map]
  rfl

lemma export_perm {db : DB} (hwf : WellFormed db) :
    (exportRows db).Perm (db.scores.map (expectedExportRow db)) := by
  have hgid := hwf.2.2.1
  have h2 : (exportRows db).Perm ((db.games.map (gameRowOf db)).flatMap
      (fun r => (get_game_scores db r.game_id).map
        (fun x => (⟨r.game_id, r.played_at, r.winner, x.1, x.2⟩ :
          ExportRow)))) :=
    (list_games_perm hwf).flatMap_right _
  rw [List.flatMap_map] at h2
  have h3 : (db.games.flatMap (fun g => (get_game_scores db
      (gameRowOf db g).game_id).map (fun x => (⟨(gameRowOf db g).game_id,
        (gameRowOf db g).played_at, (gameRowOf db g).winner, x.1, x.2⟩ :
        ExportRow)))).Perm
      (db.games.flatMap (fun g => (db.scores.filter
        (fun s => s.game_id == g.id)).map (expectedExportRow db))) := by
    apply List.Perm.flatMap_left
    intro g hg
    have hp := (get_game_scores_perm hwf g.id).map
      (fun x => (⟨g.id, g.played_at, (gameRowOf db g).winner, x.1, x.2⟩ :
        ExportRow))
    rw [List.map_map] at hp
    have heq : (db.scores.filter (fun s => s.game_id == g.id)).map
        ((fun x : String × Int => (⟨g.id, g.played_at, (gameRowOf db g).winner,
          x.1, x.2⟩ : ExportRow)) ∘ scorePairOf db)
        = (db.scores.filter (fun s => s.game_id == g.id)).map
          (expectedExportRow db) := by
      apply List.map_congr_left
      intro s hs
      have hsid : s.game_id = g.id := by
        have h := List.of_mem_filter hs
        simpa using h
      have hfind : db.games.find? (fun y => y.id == s.game_id) = some g := by
        apply find?_of_filter_singleton
        have h := filter_key_eq_singleton (fun y => y.id) hgid hg
        simp only at h
        rw [← hsid] at h
        exact h
      show (⟨g.id, g.played_at, (gameRowOf db g).winner, (scorePairOf db s).1,
        (scorePairOf db s).2⟩ : ExportRow) = expectedExportRow db s
      unfold expectedExportRow
      rw [hfind, hsid]
      rfl
    rw [heq] at hp
    exact hp
  have h4 : (db.games.flatMap (fun g => (db.scores.filter
      (fun s => s.game_id == g.id)).map (expectedExportRow db)))
      = (db.games.flatMap (fun g => db.scores.filter
        (fun s => s.game_id == g.id))).map (expectedExportRow db) :=
    (List.map_flatMap _ _ _).symm
  have h5 : (db.games.flatMap (fun g => db.scores.filter
      (fun s => s.game_id == g.id)))
      = (db.games.map (fun g => g.id)).flatMap (fun k => db.scores.filter
        (fun s => s.game_id == k)) :=
    (List.flatMap_map (fun g : Game => g.id)
      (fun k => db.scores.filter (fun s => s.game_id == k)) db.games).symm
  have h6 : ((db.games.map (fun g => g.id)).flatMap (fun k => db.scores.filter
      (fun s => s.game_id == k))).Perm db.scores :=
    flatMap_partition_perm (fun s => s.game_id)
      (db.games.map (fun g => g.id)) db.scores hgid (by
        intro s hs
        obtain ⟨g, hg, hgeq⟩ := hwf.2.2.2.2.1 s hs
        rw [List.mem_map]
        exact ⟨g, hg, hgeq⟩)
  have h8 : (db.games.flatMap (fun g => (db.scores.filter
      (fun s => s.game_id == g.id)).map (expectedExportRow db))).Perm
      (db.scores.map (expectedExportRow db)) := by
    rw [h4, h5]
    exact h6.map (expectedExportRow db)
  exact (h2.trans h3).trans h8

/-- C7: on a well-formed store the export has exactly one row per score —
it is a permutation of the denormalized row of every (game, player) score
pair, carrying game id, timestamp, winner name, player name and points —
its total row count is the sum over all games of the number of scores of
that game, and its rows appear in the listing order of list_games, most
recent first. -/
theorem export_denormalizes (db : DB) (hwf : WellFormed db) :
    (exportRows db).length = (db.games.map (fun g =>
      (db.scores.filter (fun s => s.game_id == g.id)).length)).sum ∧
    (exportRows db).Perm (db.scores.map (expectedExportRow db)) ∧
    (exportRows db).Pairwise (fun r₁ r₂ =>
      strLt r₂.played_at r₁.played_at = true ∨
      (r₁.played_at = r₂.played_at ∧ r₂.game_id ≤ r₁.game_id)) := by
  refine ⟨export_length hwf, export_perm hwf, ?_⟩
  unfold exportRows
  apply pairwise_flatMap (R := fun g₁ g₂ : GameRow => gameDescLe g₁ g₂ = true)
  · exact @List.sorted_insertionSort GameRow
      (fun a b => gameDescLe a b = true)
      (fun a b => instDecidableEqBool (gameDescLe a b) true)
      ⟨gameDescLe_total⟩ ⟨gameDescLe_trans⟩ (gameRows db)
  · intro g hg x hx y hy
    obtain ⟨rx, hrx, hxeq⟩ := List.mem_map.mp hx
    obtain ⟨ry, hry, hyeq⟩ := List.mem_map.mp hy
    subst hxeq
    subst hyeq
    exact Or.inr ⟨rfl, le_refl _⟩
  · intro g₁ g₂ hR x hx y hy
    obtain ⟨rx, hrx, hxeq⟩ := List.mem_map.mp hx
    obtain ⟨ry, hry, hyeq⟩ := List.mem_map.mp hy
    subst hxeq
    subst hyeq
    rcases (gameDescLe_iff g₁ g₂).mp hR with h | ⟨hpa, hid⟩
    · exact Or.inl h
    · exact Or.inr ⟨hpa, hid⟩

theorem export_denormalizes_witness :
    (exportRows sampleDB).length = (sampleDB.games.map (fun g =>
      (sampleDB.scores.filter (fun s => s.game_id == g.id)).length)).sum :=
  (export_denormalizes sampleDB (by decide)).1
